import Mathlib

/-!
Verification of `tools/MSAuthExport/MSAuthExportScript.py`.

The script is a one-shot exporter: it reads account rows from a local
SQLite database, re-encodes each row's secret according to its
`account_type`, builds an `otpauth://totp/...` provisioning URI per row,
and writes the URIs to a text file.  This file gives a shallow embedding
of the script: its pure helpers (`base64_to_base32`, the per-row
transform, URL quoting) become Lean functions on `String`/`List`, the
byte values appearing in base64 decoding become `Nat`s (Python integers
are unbounded, and every byte here is `< 256`), and the script's
top-level control flow becomes a function from an abstract environment
(does the database file exist; what did the query return) to a run
result (exit code, whether the database was touched, the lines of the
output file, the console events).
-/

namespace MSAuth

/-! ## base64_to_base32 (script lines 23-57) -/

/-- Base32 alphabet, line 33 of the script:
`base32_alphabet = 'ABCDEFGHIJKLMNOPQRSTUVWXYZ234567'`. -/
def base32_alphabet : List Char := "ABCDEFGHIJKLMNOPQRSTUVWXYZ234567".toList

/-- Inner `while bit_count >= 5` loop of `base64_to_base32` (lines 44-47):
repeatedly take the top 5 pending bits (`index = (bits >> bit_count) & 0x1F`
after `bit_count -= 5`) and emit `base32_alphabet[index]`.  Returns the
final `bit_count` together with the characters emitted, in order. -/
def drain (bits bitCount : Nat) : Nat × List Char :=
  if h : 5 ≤ bitCount then
    ((drain bits (bitCount - 5)).1,
      base32_alphabet.getD ((bits >>> (bitCount - 5)) &&& 31) 'A' ::
        (drain bits (bitCount - 5)).2)
  else
    (bitCount, [])
termination_by bitCount

/-- One iteration of the `for byte in decoded_bytes` loop (lines 40-47):
`bits = (bits << 8) | byte; bit_count += 8`, then the inner while loop.
The state is `(bits, bit_count, result)`. -/
def b32Step (st : Nat × Nat × List Char) (byte : Nat) : Nat × Nat × List Char :=
  ((st.1 <<< 8) ||| byte,
    (drain ((st.1 <<< 8) ||| byte) (st.2.1 + 8)).1,
    st.2.2 ++ (drain ((st.1 <<< 8) ||| byte) (st.2.1 + 8)).2)

/-- Body of `base64_to_base32` after a successful decode (lines 36-54):
fold the byte loop from `bits = 0, bit_count = 0, result = []`, then, if
bits remain, emit `base32_alphabet[(bits << (5 - bit_count)) & 0x1F]`
(lines 50-52), i.e. the final partial group zero-padded on the low side. -/
def bytesToBase32 (decoded_bytes : List Nat) : String :=
  let st := decoded_bytes.foldl b32Step (0, 0, [])
  if 0 < st.2.1 then
    ⟨st.2.2 ++ [base32_alphabet.getD ((st.1 <<< (5 - st.2.1)) &&& 31) 'A']⟩
  else
    ⟨st.2.2⟩

/-- The base64 alphabet in table order, so that the index of a character
is its 6-bit value. -/
def b64chars : List Char :=
  "ABCDEFGHIJKLMNOPQRSTUVWXYZabcdefghijklmnopqrstuvwxyz0123456789+/".toList

/-- 6-bit value of a base64 alphabet character (only ever applied to
members of `b64chars`). -/
def b64val (c : Char) : Nat := b64chars.indexOf c

/-- Decode a run of base64 quads into bytes.  Each full quad of data
characters yields three bytes; a quad ending in `=` or `==` yields two
bytes or one byte and ends the data (anything after the padding is
ignored, as CPython's non-strict decoder does); padding in the first two
positions of a quad, or a lone `=` before a data character, is an error. -/
def decodeQuads : List Char → Option (List Nat)
  | [] => some []
  | a :: b :: c :: d :: rest =>
    if a = '=' ∨ b = '=' then none
    else if c = '=' then
      if d = '=' then some [((b64val a) <<< 2) ||| ((b64val b) >>> 4)]
      else none
    else if d = '=' then
      some [((b64val a) <<< 2) ||| ((b64val b) >>> 4),
            (((b64val b) &&& 15) <<< 4) ||| ((b64val c) >>> 2)]
    else
      (decodeQuads rest).map (fun bs =>
        (((b64val a) <<< 2) ||| ((b64val b) >>> 4)) ::
        ((((b64val b) &&& 15) <<< 4) ||| ((b64val c) >>> 2)) ::
        ((((b64val c) &&& 3) <<< 6) ||| (b64val d)) :: bs)
  | _ => none

/-- Models CPython `base64.b64decode` in its default non-strict mode, as
called on line 30 of the script: characters outside the base64 alphabet
and `=` are discarded, the remaining length must be a multiple of four
(else `binascii.Error`, modelled as `none`), and the quads are decoded. -/
def b64decode (s : String) : Option (List Nat) :=
  let t := s.toList.filter (fun c => b64chars.contains c || c == '=')
  if t.length % 4 = 0 then decodeQuads t else none

/-- `base64_to_base32` (lines 23-57): decode the base64 input and
re-encode the bytes as unpadded base32; on a decode failure the `except`
arm returns `None`, modelled as `none`. -/
def base64_to_base32 (base64_str : String) : Option String :=
  (b64decode base64_str).map bytesToBase32

/-! ## Bit-arithmetic helper lemmas -/

theorem and31_eq_mod (x : Nat) : x &&& 31 = x % 32 := by
  have h := Nat.and_pow_two_sub_one_eq_mod x 5
  norm_num at h
  exact h

theorem lor_shiftRight (x y n : Nat) : (x ||| y) >>> n = (x >>> n) ||| (y >>> n) := by
  apply Nat.eq_of_testBit_eq
  intro i
  simp [Nat.testBit_shiftRight, Nat.testBit_lor]

theorem shiftLeft8_or_eq_add (x y : Nat) (h : y < 256) :
    (x <<< 8) ||| y = 256 * x + y := by
  have h1 : ((x <<< 8) ||| y) >>> 8 = x := by
    rw [lor_shiftRight, Nat.shiftLeft_shiftRight]
    have hy : y >>> 8 = 0 := by
      rw [Nat.shiftRight_eq_div_pow]
      omega
    simp [hy]
  have h2 : ((x <<< 8) ||| y) % 256 = y := by
    have hm := Nat.and_pow_two_sub_one_eq_mod ((x <<< 8) ||| y) 8
    rw [Nat.and_distrib_right] at hm
    have hx : (x <<< 8) &&& (2 ^ 8 - 1) = 0 := by
      rw [Nat.and_pow_two_sub_one_eq_mod, Nat.shiftLeft_eq]
      norm_num [Nat.mul_mod_left]
    have hy : y &&& (2 ^ 8 - 1) = y := by
      rw [Nat.and_pow_two_sub_one_eq_mod]
      omega
    rw [hx, hy] at hm
    simp at hm
    omega
  have h3 := Nat.div_add_mod ((x <<< 8) ||| y) 256
  rw [Nat.shiftRight_eq_div_pow] at h1
  norm_num at h1
  omega

/-! ## Specification lemmas for the encoder -/

theorem base32_alphabet_getD_mem : ∀ i, i < 32 → base32_alphabet.getD i 'A' ∈ base32_alphabet := by
  decide

/-- Index of a base32 character in the alphabet; inverse of the table
lookup, used only to state the value of an encoded string. -/
def b32Index (c : Char) : Nat := base32_alphabet.indexOf c

theorem b32Index_getD : ∀ i, i < 32 → b32Index (base32_alphabet.getD i 'A') = i := by
  decide

/-- Big-endian 5-bits-per-character value of a base32 string, starting
from seed `v`. -/
def b32ValFrom (v : Nat) (cs : List Char) : Nat :=
  cs.foldl (fun a c => 32 * a + b32Index c) v

/-- Big-endian value of a base32 character list. -/
def b32Val (cs : List Char) : Nat := b32ValFrom 0 cs

theorem b32ValFrom_append (v : Nat) (cs ds : List Char) :
    b32ValFrom v (cs ++ ds) = b32ValFrom (b32ValFrom v cs) ds := by
  simp [b32ValFrom, List.foldl_append]

theorem drain_fst (bits : Nat) : ∀ bc, (drain bits bc).1 = bc % 5 := by
  intro bc
  induction bc using Nat.strong_induction_on with
  | _ bc ih =>
    by_cases h : 5 ≤ bc
    · rw [drain, dif_pos h]
      show (drain bits (bc - 5)).1 = bc % 5
      rw [ih (bc - 5) (by omega)]
      omega
    · rw [drain, dif_neg h]
      show bc = bc % 5
      omega

theorem drain_length (bits : Nat) : ∀ bc, (drain bits bc).2.length = bc / 5 := by
  intro bc
  induction bc using Nat.strong_induction_on with
  | _ bc ih =>
    by_cases h : 5 ≤ bc
    · rw [drain, dif_pos h]
      show (_ :: (drain bits (bc - 5)).2).length = bc / 5
      rw [List.length_cons, ih (bc - 5) (by omega)]
      omega
    · rw [drain, dif_neg h]
      show ([] : List Char).length = bc / 5
      simp
      omega

theorem drain_mem (bits : Nat) : ∀ bc, ∀ c ∈ (drain bits bc).2, c ∈ base32_alphabet := by
  intro bc
  induction bc using Nat.strong_induction_on with
  | _ bc ih =>
    by_cases h : 5 ≤ bc
    · rw [drain, dif_pos h]
      intro c hc
      rcases List.mem_cons.mp hc with hc | hc
      · subst hc
        apply base32_alphabet_getD_mem
        rw [and31_eq_mod]
        omega
      · exact ih (bc - 5) (by omega) c hc
    · rw [drain, dif_neg h]
      intro c hc
      exact absurd hc (List.not_mem_nil c)

theorem drain_val (bits : Nat) : ∀ bc v, v = bits >>> bc →
    b32ValFrom v (drain bits bc).2 = bits >>> (bc % 5) := by
  intro bc
  induction bc using Nat.strong_induction_on with
  | _ bc ih =>
    intro v hv
    by_cases h : 5 ≤ bc
    · rw [drain, dif_pos h]
      have hstep : 32 * v + b32Index (base32_alphabet.getD ((bits >>> (bc - 5)) &&& 31) 'A')
          = bits >>> (bc - 5) := by
        rw [b32Index_getD _ (by rw [and31_eq_mod]; omega)]
        rw [and31_eq_mod, hv]
        have hsplit : bits >>> bc = (bits >>> (bc - 5)) >>> 5 := by
          rw [← Nat.shiftRight_add]
          congr 1
          omega
        rw [hsplit]
        rw [Nat.shiftRight_eq_div_pow _ 5]
        norm_num
        omega
      calc b32ValFrom v
            (base32_alphabet.getD ((bits >>> (bc - 5)) &&& 31) 'A' :: (drain bits (bc - 5)).2)
          = b32ValFrom (32 * v + b32Index (base32_alphabet.getD ((bits >>> (bc - 5)) &&& 31) 'A'))
              (drain bits (bc - 5)).2 := rfl
        _ = bits >>> ((bc - 5) % 5) := ih (bc - 5) (by omega) _ hstep
        _ = bits >>> (bc % 5) := by congr 1; omega
    · rw [drain, dif_neg h]
      have hbc : bc % 5 = bc := by omega
      rw [hbc]
      exact hv

theorem or_lt_256 (x y : Nat) (hx : x < 256) (hy : y < 256) : (x ||| y) < 256 := by
  have h8 : (256 : Nat) = 2 ^ 8 := by norm_num
  rw [h8] at hx hy ⊢
  exact Nat.or_lt_two_pow hx hy

theorem and15_eq_mod (x : Nat) : x &&& 15 = x % 16 := by
  have h := Nat.and_pow_two_sub_one_eq_mod x 4
  norm_num at h
  exact h

theorem and3_eq_mod (x : Nat) : x &&& 3 = x % 4 := by
  have h := Nat.and_pow_two_sub_one_eq_mod x 2
  norm_num at h
  exact h

theorem byte1_lt (va vb : Nat) (h1 : va < 64) (h2 : vb < 64) :
    ((va <<< 2) ||| (vb >>> 4)) < 256 := by
  apply or_lt_256
  · rw [Nat.shiftLeft_eq]
    norm_num
    omega
  · rw [Nat.shiftRight_eq_div_pow]
    norm_num
    omega

theorem byte2_lt (vb vc : Nat) (h2 : vb < 64) (h3 : vc < 64) :
    (((vb &&& 15) <<< 4) ||| (vc >>> 2)) < 256 := by
  apply or_lt_256
  · rw [and15_eq_mod, Nat.shiftLeft_eq]
    norm_num
    omega
  · rw [Nat.shiftRight_eq_div_pow]
    norm_num
    omega

theorem byte3_lt (vc vd : Nat) (h3 : vc < 64) (h4 : vd < 64) :
    (((vc &&& 3) <<< 6) ||| vd) < 256 := by
  apply or_lt_256
  · rw [and3_eq_mod, Nat.shiftLeft_eq]
    norm_num
    omega
  · omega

theorem b64val_lt (c : Char) (h : c ∈ b64chars) : b64val c < 64 := by
  have hlen : b64chars.length = 64 := rfl
  have hi := List.indexOf_lt_length.mpr h
  rw [hlen] at hi
  exact hi

/-- Big-endian integer value of a byte sequence (the number whose base-256
digits are the bytes, most significant first). -/
def natOfBytes (bs : List Nat) : Nat := bs.foldl (fun a b => 256 * a + b) 0

theorem foldl_shiftor_eq (bs : List Nat) : ∀ x, (∀ b ∈ bs, b < 256) →
    bs.foldl (fun a b => (a <<< 8) ||| b) x = bs.foldl (fun a b => 256 * a + b) x := by
  induction bs with
  | nil => intro x _; rfl
  | cons b bs ih =>
    intro x hb
    rw [List.foldl_cons, List.foldl_cons]
    rw [shiftLeft8_or_eq_add x b (hb b (List.mem_cons_self b bs))]
    exact ih _ (fun b' hb' => hb b' (List.mem_cons_of_mem b hb'))

theorem val_pad (N k : Nat) (h1 : 0 < k) (h2 : k < 5) :
    32 * (N >>> k) + ((N <<< (5 - k)) &&& 31) = N * 2 ^ (5 - k) := by
  rw [and31_eq_mod, Nat.shiftLeft_eq, Nat.shiftRight_eq_div_pow]
  have hsplit : (2 : Nat) ^ k * 2 ^ (5 - k) = 32 := by
    rw [← pow_add, show k + (5 - k) = 5 from by omega]
    norm_num
  have hmod := Nat.mul_mod_mul_right (2 ^ (5 - k)) N (2 ^ k)
  rw [hsplit] at hmod
  rw [hmod]
  have hdm := Nat.div_add_mod N (2 ^ k)
  calc 32 * (N / 2 ^ k) + N % 2 ^ k * 2 ^ (5 - k)
      = (2 ^ k * (N / 2 ^ k) + N % 2 ^ k) * 2 ^ (5 - k) := by rw [← hsplit]; ring
    _ = N * 2 ^ (5 - k) := by rw [hdm]

theorem foldl_b32Step_spec : ∀ (bs : List Nat) (bits bc : Nat) (acc : List Char),
    (∀ b ∈ bs, b < 256) → bc < 5 → b32Val acc = bits >>> bc →
    (∀ c ∈ acc, c ∈ base32_alphabet) →
    (bs.foldl b32Step (bits, bc, acc)).1 = bs.foldl (fun a b => (a <<< 8) ||| b) bits ∧
    (bs.foldl b32Step (bits, bc, acc)).2.1 = (bc + 8 * bs.length) % 5 ∧
    (bs.foldl b32Step (bits, bc, acc)).2.2.length = acc.length + (bc + 8 * bs.length) / 5 ∧
    b32Val (bs.foldl b32Step (bits, bc, acc)).2.2
      = (bs.foldl b32Step (bits, bc, acc)).1 >>> (bs.foldl b32Step (bits, bc, acc)).2.1 ∧
    (∀ c ∈ (bs.foldl b32Step (bits, bc, acc)).2.2, c ∈ base32_alphabet) := by
  intro bs
  induction bs with
  | nil =>
    intro bits bc acc _ hbc hval hmem
    refine ⟨rfl, ?_, ?_, hval, hmem⟩
    · simp only [List.foldl_nil, List.length_nil, Nat.mul_zero, Nat.add_zero]
      omega
    · simp only [List.foldl_nil, List.length_nil, Nat.mul_zero, Nat.add_zero]
      omega
  | cons b bs ih =>
    intro bits bc acc hb hbc hval hmem
    have hb256 : b < 256 := hb b (List.mem_cons_self b bs)
    have hbs : ∀ b' ∈ bs, b' < 256 := fun b' hb' => hb b' (List.mem_cons_of_mem b hb')
    rw [List.foldl_cons]
    have hshift8 : ((bits <<< 8) ||| b) >>> 8 = bits := by
      rw [lor_shiftRight, Nat.shiftLeft_shiftRight]
      have hz : b >>> 8 = 0 := by
        rw [Nat.shiftRight_eq_div_pow]
        omega
      simp [hz]
    have hstep : b32Step (bits, bc, acc) b
        = ((bits <<< 8) ||| b,
            (drain ((bits <<< 8) ||| b) (bc + 8)).1,
            acc ++ (drain ((bits <<< 8) ||| b) (bc + 8)).2) := rfl
    rw [hstep]
    have hfst : (drain ((bits <<< 8) ||| b) (bc + 8)).1 = (bc + 8) % 5 :=
      drain_fst _ _
    have hbc2 : (drain ((bits <<< 8) ||| b) (bc + 8)).1 < 5 := by
      rw [hfst]; omega
    have hval2 : b32Val (acc ++ (drain ((bits <<< 8) ||| b) (bc + 8)).2)
        = ((bits <<< 8) ||| b) >>> (drain ((bits <<< 8) ||| b) (bc + 8)).1 := by
      rw [b32Val, b32ValFrom_append]
      rw [hfst]
      apply drain_val
      show b32Val acc = ((bits <<< 8) ||| b) >>> (bc + 8)
      rw [hval]
      rw [show bc + 8 = 8 + bc from by omega, Nat.shiftRight_add, hshift8]
    have hmem2 : ∀ c ∈ acc ++ (drain ((bits <<< 8) ||| b) (bc + 8)).2, c ∈ base32_alphabet := by
      intro c hc
      rcases List.mem_append.mp hc with hc | hc
      · exact hmem c hc
      · exact drain_mem _ _ c hc
    obtain ⟨g1, g2, g3, g4, g5⟩ := ih ((bits <<< 8) ||| b) (drain ((bits <<< 8) ||| b) (bc + 8)).1
      (acc ++ (drain ((bits <<< 8) ||| b) (bc + 8)).2) hbs hbc2 hval2 hmem2
    refine ⟨g1, ?_, ?_, g4, g5⟩
    · rw [g2, hfst]
      simp [List.length_cons]
      omega
    · rw [g3, hfst]
      rw [List.length_append, drain_length]
      simp [List.length_cons]
      omega

theorem bytesToBase32_spec (bs : List Nat) (hb : ∀ b ∈ bs, b < 256) :
    (∀ c ∈ (bytesToBase32 bs).toList, c ∈ base32_alphabet) ∧
    (bytesToBase32 bs).length = (8 * bs.length + 4) / 5 ∧
    b32Val (bytesToBase32 bs).toList
      = natOfBytes bs * 2 ^ (5 * ((8 * bs.length + 4) / 5) - 8 * bs.length) := by
  obtain ⟨g1, g2, g3, g4, g5⟩ :=
    foldl_b32Step_spec bs 0 0 [] hb (by omega) rfl (by simp)
  have hN : (bs.foldl b32Step (0, 0, [])).1 = natOfBytes bs := by
    rw [g1, foldl_shiftor_eq bs 0 hb]
    rfl
  rw [bytesToBase32]
  by_cases h : 0 < (bs.foldl b32Step (0, 0, [])).2.1
  · rw [if_pos h]
    have hmod : (bs.foldl b32Step (0, 0, [])).2.1 = (8 * bs.length) % 5 := by
      rw [g2]; congr 1; omega
    have hmodpos : 0 < (8 * bs.length) % 5 := by rw [← hmod]; exact h
    constructor
    · intro c hc
      rcases List.mem_append.mp hc with hc | hc
      · exact g5 c hc
      · rcases List.mem_singleton.mp hc with rfl
        apply base32_alphabet_getD_mem
        rw [and31_eq_mod]
        omega
    constructor
    · show (_ ++ [_]).length = _
      rw [List.length_append, g3]
      simp
      omega
    · show b32Val (_ ++ [_]) = _
      rw [b32Val, b32ValFrom_append]
      show 32 * b32ValFrom 0 (bs.foldl b32Step (0, 0, [])).2.2 +
          b32Index (base32_alphabet.getD _ 'A') = _
      rw [b32Index_getD _ (by rw [and31_eq_mod]; omega)]
      rw [show b32ValFrom 0 (bs.foldl b32Step (0, 0, [])).2.2
            = b32Val (bs.foldl b32Step (0, 0, [])).2.2 from rfl]
      rw [g4, hN, hmod]
      rw [val_pad _ _ hmodpos (by omega)]
      have hexp : 5 - (8 * bs.length) % 5 = 5 * ((8 * bs.length + 4) / 5) - 8 * bs.length := by
        omega
      rw [hexp]
  · rw [if_neg h]
    have hz : (bs.foldl b32Step (0, 0, [])).2.1 = 0 := by omega
    have hmod : (8 * bs.length) % 5 = 0 := by
      rw [g2] at hz
      omega
    refine ⟨g5, ?_, ?_⟩
    · show (bs.foldl b32Step (0, 0, [])).2.2.length = _
      rw [g3]
      simp
      omega
    · show b32Val (bs.foldl b32Step (0, 0, [])).2.2 = _
      rw [g4, hz, hN]
      have hexp : 5 * ((8 * bs.length + 4) / 5) - 8 * bs.length = 0 := by omega
      rw [hexp]
      simp

theorem decodeQuads_lt : ∀ (cs : List Char), (∀ c ∈ cs, c ∈ b64chars ∨ c = '=') →
    ∀ bs, decodeQuads cs = some bs → ∀ b ∈ bs, b < 256 := by
  intro cs
  induction cs using decodeQuads.induct with
  | case1 =>
    intro _ bs hbs b hb
    simp only [decodeQuads, Option.some.injEq] at hbs
    subst hbs
    exact absurd hb (List.not_mem_nil b)
  | case2 a b c d rest hg =>
    intro _ bs hbs
    simp [decodeQuads, hg] at hbs
  | case3 a b rest hg =>
    intro hmem bs hbs x hx
    push_neg at hg
    have ha : a ∈ b64chars := (hmem a (by simp)).resolve_right hg.1
    have hb : b ∈ b64chars := (hmem b (by simp)).resolve_right hg.2
    simp [decodeQuads, hg.1, hg.2] at hbs
    subst hbs
    rcases List.mem_singleton.mp hx with rfl
    exact byte1_lt _ _ (b64val_lt a ha) (b64val_lt b hb)
  | case4 a b d rest hg hd =>
    intro _ bs hbs
    simp [decodeQuads, hg, hd] at hbs
  | case5 a b c rest hg hc =>
    intro hmem bs hbs x hx
    push_neg at hg
    have ha : a ∈ b64chars := (hmem a (by simp)).resolve_right hg.1
    have hb : b ∈ b64chars := (hmem b (by simp)).resolve_right hg.2
    have hcm : c ∈ b64chars := (hmem c (by simp)).resolve_right hc
    simp [decodeQuads, hg.1, hg.2, hc] at hbs
    subst hbs
    rcases List.mem_cons.mp hx with rfl | hx
    · exact byte1_lt _ _ (b64val_lt a ha) (b64val_lt b hb)
    · rcases List.mem_singleton.mp hx with rfl
      exact byte2_lt _ _ (b64val_lt b hb) (b64val_lt c hcm)
  | case6 a b c d rest hg hc hd ih =>
    intro hmem bs hbs x hx
    push_neg at hg
    have ha : a ∈ b64chars := (hmem a (by simp)).resolve_right hg.1
    have hb : b ∈ b64chars := (hmem b (by simp)).resolve_right hg.2
    have hcm : c ∈ b64chars := (hmem c (by simp)).resolve_right hc
    have hdm : d ∈ b64chars := (hmem d (by simp)).resolve_right hd
    simp only [decodeQuads, hg.1, hg.2, hc, hd, if_neg, ite_false, or_self,
      if_false] at hbs
    rcases Option.map_eq_some'.mp hbs with ⟨bs', hbs', rfl⟩
    rcases List.mem_cons.mp hx with rfl | hx
    · exact byte1_lt _ _ (b64val_lt a ha) (b64val_lt b hb)
    rcases List.mem_cons.mp hx with rfl | hx
    · exact byte2_lt _ _ (b64val_lt b hb) (b64val_lt c hcm)
    rcases List.mem_cons.mp hx with rfl | hx
    · exact byte3_lt _ _ (b64val_lt c hcm) (b64val_lt d hdm)
    · exact ih (fun y hy => hmem y (by simp [hy])) bs' hbs' x hx
  | case7 t h1 h2 =>
    intro _ bs hbs
    match t, h1, h2 with
    | [], h1, _ => exact absurd rfl h1
    | [a], _, _ => simp [decodeQuads] at hbs
    | [a, b], _, _ => simp [decodeQuads] at hbs
    | [a, b, c], _, _ => simp [decodeQuads] at hbs
    | a :: b :: c :: d :: rest, _, h2 => exact absurd rfl (h2 a b c d rest)

theorem b64decode_mem (s : String) (bs : List Nat) (h : b64decode s = some bs) :
    ∀ b ∈ bs, b < 256 := by
  rw [b64decode] at h
  set t := s.toList.filter (fun c => b64chars.contains c || c == '=') with ht
  by_cases hlen : t.length % 4 = 0
  · rw [if_pos hlen] at h
    apply decodeQuads_lt t _ bs h
    intro c hc
    have h2 := (List.mem_filter.mp hc).2
    have h3 : c ∈ b64chars ∨ c = '=' := by simpa using h2
    exact h3
  · rw [if_neg hlen] at h
    exact absurd h (by simp)

/-- C2: for every input string that base64-decodes successfully to a byte
sequence `bs`, `base64_to_base32` returns exactly the base32 re-encoding
of those bytes: a string all of whose characters lie in
`ABCDEFGHIJKLMNOPQRSTUVWXYZ234567`, of length `ceil(8*|bs|/5)`
(written `(8*|bs|+4)/5`), and whose characters, read as big-endian 5-bit
groups, spell the bytes' big-endian value padded with zero bits on the
low side. -/
theorem C2_base64_to_base32_spec (s : String) (bs : List Nat)
    (h : b64decode s = some bs) :
    base64_to_base32 s = some (bytesToBase32 bs) ∧
    (∀ c ∈ (bytesToBase32 bs).toList, c ∈ base32_alphabet) ∧
    (bytesToBase32 bs).length = (8 * bs.length + 4) / 5 ∧
    b32Val (bytesToBase32 bs).toList
      = natOfBytes bs * 2 ^ (5 * (bytesToBase32 bs).length - 8 * bs.length) := by
  have hb := b64decode_mem s bs h
  obtain ⟨g1, g2, g3⟩ := bytesToBase32_spec bs hb
  refine ⟨by rw [base64_to_base32, h]; rfl, g1, g2, ?_⟩
  rw [g2]
  exact g3

theorem C2_witness : (bytesToBase32 [65]).length = (8 * List.length [65] + 4) / 5 :=
  (C2_base64_to_base32_spec "QQ==" [65] (by decide)).2.2.1

/-! ## URL quoting (urllib.parse.quote, line 20 import, lines 136-137) -/

/-- Characters urllib.parse.quote never encodes regardless of `safe`:
ASCII letters, digits, and `_.-~` (the RFC 3986 unreserved set). -/
def alwaysSafe (c : Char) : Bool :=
  ('A' ≤ c && c ≤ 'Z') || ('a' ≤ c && c ≤ 'z') || ('0' ≤ c && c ≤ '9') ||
    c == '_' || c == '.' || c == '-' || c == '~'

/-- Safe set of `quote` as called by the script, i.e. with the default
parameter `safe="/"`: the always-safe characters plus `/`. -/
def quoteSafe (c : Char) : Bool := alwaysSafe c || c == '/'

/-- Uppercase hexadecimal digit, as used by quote's percent-escapes. -/
def hexDigit (n : Nat) : Char := "0123456789ABCDEF".toList.getD n '0'

/-- UTF-8 encoding of a character as a byte list (quote encodes non-safe
characters as the percent-escaped bytes of their UTF-8 encoding). -/
def utf8Bytes (c : Char) : List Nat :=
  if c.toNat < 128 then [c.toNat]
  else if c.toNat < 2048 then
    [192 ||| (c.toNat >>> 6), 128 ||| (c.toNat &&& 63)]
  else if c.toNat < 65536 then
    [224 ||| (c.toNat >>> 12), 128 ||| ((c.toNat >>> 6) &&& 63), 128 ||| (c.toNat &&& 63)]
  else
    [240 ||| (c.toNat >>> 18), 128 ||| ((c.toNat >>> 12) &&& 63),
      128 ||| ((c.toNat >>> 6) &&& 63), 128 ||| (c.toNat &&& 63)]

/-- Percent-escape of one byte: `%` followed by two uppercase hex digits. -/
def pctEncodeByte (b : Nat) : List Char := ['%', hexDigit (b / 16), hexDigit (b % 16)]

/-- Encoding of one character under `quote` with default `safe="/"`. -/
def quoteChar (c : Char) : List Char :=
  if quoteSafe c then [c] else (utf8Bytes c).flatMap pctEncodeByte

/-- Models CPython `urllib.parse.quote` with its default `safe="/"`, as
called on lines 136-137 of the script. -/
def pyQuote (s : String) : String := ⟨s.toList.flatMap quoteChar⟩

/-- Specification-side definition, following the spec's words: standard
URI component encoding percent-encodes every character outside the
RFC 3986 unreserved set (ASCII letters, digits, `-._~`), so that labels
and the issuer query parameter round-trip through a compliant URI
parser.  Defined independently of `pyQuote` for comparison with it. -/
def unreservedChar (c : Char) : Bool :=
  ('A' ≤ c && c ≤ 'Z') || ('a' ≤ c && c ≤ 'z') || ('0' ≤ c && c ≤ '9') ||
    c == '_' || c == '.' || c == '-' || c == '~'

/-- Standard URI component encoding of one character (from the spec's
words): unreserved characters pass through, all others are
percent-encoded as their UTF-8 bytes. -/
def componentQuoteChar (c : Char) : List Char :=
  if unreservedChar c then [c] else (utf8Bytes c).flatMap pctEncodeByte

/-- Standard URI component encoding of a string (from the spec's words). -/
def componentQuote (s : String) : String := ⟨s.toList.flatMap componentQuoteChar⟩

/-- The RFC 3986 reserved characters (gen-delims and sub-delims). -/
def uriReserved : List Char :=
  [':', '/', '?', '#', '[', ']', '@', '!', '$', '&', '\x27', '(', ')', '*', '+', ',', ';', '=']

theorem quoteChar_eq_componentQuoteChar (c : Char) (h : c ≠ '/') :
    quoteChar c = componentQuoteChar c := by
  rw [quoteChar, componentQuoteChar]
  have h1 : (c == '/') = false := beq_eq_false_iff_ne.mpr h
  have h2 : quoteSafe c = alwaysSafe c := by rw [quoteSafe, h1, Bool.or_false]
  have h3 : alwaysSafe c = unreservedChar c := rfl
  rw [h2, h3]

theorem flatMap_quote_eq (l : List Char) (h : '/' ∉ l) :
    l.flatMap quoteChar = l.flatMap componentQuoteChar := by
  induction l with
  | nil => rfl
  | cons c cs ih =>
    have hcne : c ≠ '/' := by
      intro hc
      exact h (by rw [hc]; exact List.mem_cons_self '/' cs)
    rw [List.flatMap_cons, List.flatMap_cons]
    rw [quoteChar_eq_componentQuoteChar c hcne]
    rw [ih (fun hc => h (List.mem_cons_of_mem c hc))]

/-- C4 counterexample: the script's URL encoding does not match standard
URI component encoding on every string, because `quote`'s default
`safe="/"` leaves the reserved character `/` unencoded: on the issuer
string `"/"` the script emits `/` where component encoding emits `%2F`. -/
theorem C4_counterexample :
    '/' ∈ uriReserved ∧ pyQuote "/" = "/" ∧ componentQuote "/" = "%2F" ∧
    ¬ (∀ s : String, pyQuote s = componentQuote s) :=
  ⟨by decide, by decide, by decide, fun h => absurd (h "/") (by decide)⟩

/-- C4 (amended): the script's URL encoding percent-encodes every
reserved URI character except `/`, which it emits verbatim; consequently
it agrees exactly with standard URI component encoding on every issuer
or account string that contains no `/`. -/
theorem C4_quote_component (s : String) (h : '/' ∉ s.toList) :
    pyQuote s = componentQuote s ∧
    (∀ c ∈ uriReserved, c ≠ '/' → quoteChar c = pctEncodeByte c.toNat) ∧
    quoteChar '/' = ['/'] := by
  refine ⟨?_, by decide, by decide⟩
  rw [pyQuote, componentQuote]
  exact congrArg String.mk (flatMap_quote_eq s.toList h)

theorem C4_witness : pyQuote "a b@x.com" = componentQuote "a b@x.com" :=
  (C4_quote_component "a b@x.com" (by decide)).1

/-! ## Per-row transform (script lines 111-151) -/

/-- One row of the query result (line 92): `SELECT name, username,
oath_secret_key, account_type FROM accounts WHERE oath_secret_key IS NOT
NULL AND oath_secret_key != ''`.  `name` and `username` are nullable
TEXT columns; the secret is guaranteed non-NULL by the WHERE clause;
`account_type` is an integer discriminant. -/
structure Row where
  name : Option String
  username : Option String
  secret_key : String
  account_type : Int
deriving DecidableEq

/-- Whitespace characters removed from the raw secret by the chain
`.replace(' ', '').replace('\t', '').replace('\n', '').replace('\r', '')`
(lines 117, 125, 129). -/
def isStrippedWS (c : Char) : Bool := c == ' ' || c == '\t' || c == '\n' || c == '\r'

/-- The secret with all four whitespace characters removed; replacing
each single-character pattern by the empty string in sequence is the
same as filtering those characters out. -/
def cleanSecret (s : String) : String := ⟨s.toList.filter (fun c => !(isStrippedWS c))⟩

/-- Models Python `str.upper()` on the cleaned secret (lines 125, 129).
`Char.toUpper` uppercases exactly ASCII `a-z`; Python's `upper` is
Unicode-aware, but every character the base32 invariant concerns is
ASCII. -/
def pyUpper (s : String) : String := ⟨s.toList.map Char.toUpper⟩

/-- The `secret` value computed for a row (lines 115-129): for
`account_type == 1` the cleaned secret is base64-decoded and re-encoded
as base32 (`none` = the `secret is None` skip path); for every other
`account_type` (2, 0, and anything else) the cleaned secret is
uppercased and used verbatim. -/
def rowSecret (r : Row) : Option String :=
  if r.account_type = 1 then base64_to_base32 (cleanSecret r.secret_key)
  else some (pyUpper (cleanSecret r.secret_key))

/-- `issuer = name or 'Unknown'` (line 133): `None` and the empty string
are both falsy. -/
def issuerOf (r : Row) : String :=
  match r.name with
  | none => "Unknown"
  | some s => if s = "" then "Unknown" else s

/-- `account = username or ''` (line 134). -/
def accountOf (r : Row) : String :=
  match r.username with
  | none => ""
  | some s => s

/-- Label construction (lines 136-143): issuer and account URL-encoded
independently; the colon-joined form only when `account` is non-empty. -/
def labelOf (r : Row) : String :=
  if accountOf r = "" then pyQuote (issuerOf r)
  else pyQuote (issuerOf r) ++ ":" ++ pyQuote (accountOf r)

/-- `algorithm = 'SHA256' if account_type == 2 else 'SHA1'` (line 146). -/
def algorithmOf (r : Row) : String :=
  if r.account_type = 2 then "SHA256" else "SHA1"

/-- The `otpauth://` URI built for a row (line 149), or `none` when the
row is skipped because its type-1 secret failed to decode (lines 119-121). -/
def rowToUri (r : Row) : Option String :=
  (rowSecret r).map (fun secret =>
    "otpauth://totp/" ++ labelOf r ++ "?secret=" ++ secret ++
      "&digits=6&period=30&algorithm=" ++ algorithmOf r ++ "&issuer=" ++ pyQuote (issuerOf r))

/-! ## Top-level control flow (lines 60-181) -/

/-- Console output events, abstracting the script's prints: the missing
database report with the expected path (lines 65-69), a database error
(line 177), the no-accounts message (line 102), the per-row progress
line (lines 154-159, display truncation elided), and the skip line with
the row's `name or "Unknown"` and `username or ""` (line 120). -/
inductive Event where
  | dbMissing (path : String)
  | dbError (msg : String)
  | noAccounts
  | exported (index : Nat)
  | skipped (index : Nat) (name username : String)
deriving DecidableEq

/-- The `for index, row in enumerate(rows, 1)` loop (lines 111-159):
accumulates the URIs of rows that convert and a console event per row;
a row whose `rowToUri` is `none` is skipped with a console line and
`continue`. -/
def processGo : Nat → List Row → List String × List Event
  | _, [] => ([], [])
  | i, r :: rs =>
    match rowToUri r with
    | none =>
      ((processGo (i + 1) rs).1,
        Event.skipped i (issuerOf r) (accountOf r) :: (processGo (i + 1) rs).2)
    | some url =>
      (url :: (processGo (i + 1) rs).1,
        Event.exported i :: (processGo (i + 1) rs).2)

/-- The whole row loop, with `enumerate(rows, 1)` starting at index 1. -/
def processRows (rows : List Row) : List String × List Event := processGo 1 rows

/-- Fixed path printed by the missing-database report (line 66). -/
def expectedDbPath : String := "tools/MSAuthExport/databases/PhoneFactor"

/-- Abstract environment of one run: whether the database file exists at
`DB_PATH` (line 64), and what connecting plus running the query yields —
`Except.error` models a raised `sqlite3.Error` (or other exception)
during connect/execute/fetch, `Except.ok rows` the fetched row list. -/
structure Env where
  dbExists : Bool
  queryResult : Except String (List Row)

/-- Observable outcome of one run: the process exit code, whether the
database was opened (any database I/O attempted), the lines of the
output file (`none` = no output file created, `some ls` = file created
with exactly those lines, written one URI per line at lines 162-164),
and the console events. -/
structure RunResult where
  exitCode : Nat
  dbOpened : Bool
  outputFile : Option (List String)
  events : List Event
deriving DecidableEq

/-- Top-level control flow of the script (lines 64-181): missing
database → report and `sys.exit(1)` before any database I/O; database
error → report and `sys.exit(1)` with no output file; empty result set →
no-accounts message, no output file, `sys.exit(0)` (lines 101-104);
otherwise process all rows, write the collected URIs to the output file,
and finish with exit code 0. -/
def runScript (env : Env) : RunResult :=
  if env.dbExists = false then
    { exitCode := 1, dbOpened := false, outputFile := none,
      events := [Event.dbMissing expectedDbPath] }
  else
    match env.queryResult with
    | Except.error msg =>
      { exitCode := 1, dbOpened := true, outputFile := none,
        events := [Event.dbError msg] }
    | Except.ok rows =>
      if rows.isEmpty then
        { exitCode := 0, dbOpened := true, outputFile := none,
          events := [Event.noAccounts] }
      else
        { exitCode := 0, dbOpened := true, outputFile := some (processRows rows).1,
          events := (processRows rows).2 }

/-! ## Claim theorems about the per-row transform -/

/-- C1 counterexample: a qualifying type-0 row whose stored secret is
`"0"` is emitted with secret `"0"`, and `'0'` is not in the base32
alphabet — the script validates nothing for type-0/2 rows, so the
invariant fails as soon as the stored secret itself is not base32. -/
theorem C1_counterexample :
    ¬ (∀ (r : Row) (s : String), rowSecret r = some s →
        ∀ c ∈ s.toList, c ∈ base32_alphabet) := by
  intro h
  exact absurd (h ⟨some "X", none, "0", 0⟩ "0" (by decide) '0' (by decide)) (by decide)

/-- C1 (amended): the emitted secret consists only of base32-alphabet
characters for every type-1 row (its secret is re-encoded from bytes);
for rows of any other type the secret is the stored value with
whitespace stripped and uppercased, used verbatim, so the invariant
holds exactly under the assumption that this cleaned, uppercased stored
value consists only of base32-alphabet characters. -/
theorem C1_secret_base32 (r : Row) (s : String) (hs : rowSecret r = some s)
    (hok : r.account_type = 1 ∨
      ∀ c ∈ (pyUpper (cleanSecret r.secret_key)).toList, c ∈ base32_alphabet) :
    ∀ c ∈ s.toList, c ∈ base32_alphabet := by
  rw [rowSecret] at hs
  by_cases h1 : r.account_type = 1
  · rw [if_pos h1, base64_to_base32] at hs
    rcases Option.map_eq_some'.mp hs with ⟨bs, hbs, rfl⟩
    exact (bytesToBase32_spec bs (b64decode_mem _ bs hbs)).1
  · rw [if_neg h1] at hs
    have hEq := Option.some_inj.mp hs
    subst hEq
    exact hok.resolve_left h1

theorem C1_witness : 'A' ∈ base32_alphabet :=
  C1_secret_base32 ⟨some "X", none, "ab 7", 0⟩ "AB7" (by decide) (Or.inr (by decide))
    'A' (by decide)

/-- C3: the emitted algorithm parameter is `SHA256` exactly when
`account_type = 2`, and `SHA1` for every other `account_type` value. -/
theorem C3_algorithm (r : Row) :
    (algorithmOf r = "SHA256" ↔ r.account_type = 2) ∧
    (r.account_type ≠ 2 → algorithmOf r = "SHA1") := by
  rw [algorithmOf]
  by_cases h : r.account_type = 2
  · rw [if_pos h]
    exact ⟨⟨fun _ => h, fun _ => rfl⟩, fun hn => absurd h hn⟩
  · rw [if_neg h]
    exact ⟨⟨fun hq => absurd hq (by decide), fun h2 => absurd h2 h⟩, fun _ => rfl⟩

theorem C3_witness :
    algorithmOf ⟨some "Ent", some "svc", "JBSWY3DPEHPK3PXP", 2⟩ = "SHA256" ∧
    algorithmOf ⟨some "Corp", some "", "JBSWY3DPEHPK3PXP", 0⟩ = "SHA1" :=
  ⟨(C3_algorithm _).1.mpr rfl, (C3_algorithm _).2 (by decide)⟩

theorem processGo_fst : ∀ (rows : List Row) (i : Nat),
    (processGo i rows).1 = rows.filterMap rowToUri := by
  intro rows
  induction rows with
  | nil => intro i; rfl
  | cons r rs ih =>
    intro i
    cases hr : rowToUri r with
    | none =>
      simp only [processGo, hr, List.filterMap_cons]
      exact ih (i + 1)
    | some url =>
      simp only [processGo, hr, List.filterMap_cons]
      rw [ih (i + 1)]

/-- C5: the row `("Corp", "", "JBSWY3DPEHPK3PXP", 0)` emits exactly the
specified URI, and the output lines are exactly the converted rows'
URIs, one per row, in query-result order. -/
theorem C5_concrete_and_order :
    rowToUri ⟨some "Corp", some "", "JBSWY3DPEHPK3PXP", 0⟩ =
      some "otpauth://totp/Corp?secret=JBSWY3DPEHPK3PXP&digits=6&period=30&algorithm=SHA1&issuer=Corp" ∧
    ∀ rows : List Row, (processRows rows).1 = rows.filterMap rowToUri := by
  refine ⟨by decide, ?_⟩
  intro rows
  rw [processRows]
  exact processGo_fst rows 1

theorem C5_witness :
    (processRows [⟨some "Corp", some "", "JBSWY3DPEHPK3PXP", 0⟩]).1 =
      List.filterMap rowToUri [⟨some "Corp", some "", "JBSWY3DPEHPK3PXP", 0⟩] :=
  C5_concrete_and_order.2 [⟨some "Corp", some "", "JBSWY3DPEHPK3PXP", 0⟩]

theorem hexDigit_ne_colon (n : Nat) : hexDigit n ≠ ':' := by
  by_cases h : n < 16
  · exact (by decide : ∀ m, m < 16 → hexDigit m ≠ ':') n h
  · rw [hexDigit, List.getD_eq_default]
    · decide
    · rw [show ("0123456789ABCDEF".toList).length = 16 from rfl]
      omega

theorem pctEncodeByte_no_colon (b : Nat) : ':' ∉ pctEncodeByte b := by
  intro h
  simp only [pctEncodeByte, List.mem_cons, List.not_mem_nil, or_false] at h
  rcases h with h | h | h
  · exact absurd h (by decide)
  · exact hexDigit_ne_colon _ h.symm
  · exact hexDigit_ne_colon _ h.symm

theorem quoteChar_no_colon (c : Char) : ':' ∉ quoteChar c := by
  rw [quoteChar]
  by_cases h : quoteSafe c
  · rw [if_pos h]
    intro hc
    have hcc := List.mem_singleton.mp hc
    rw [← hcc] at h
    exact absurd h (by decide)
  · rw [if_neg h]
    intro hc
    rcases List.mem_flatMap.mp hc with ⟨b, _, hb⟩
    exact pctEncodeByte_no_colon b hb

theorem pyQuote_no_colon (s : String) : ':' ∉ (pyQuote s).toList := by
  intro h
  rcases List.mem_flatMap.mp h with ⟨c, _, hc⟩
  exact quoteChar_no_colon c hc

/-- C6: with NULL or empty `name` the emitted issuer is exactly
`Unknown` (its URL-encoding included); with NULL or empty `username`
the emitted label contains no colon separator; with non-empty
`username` the label is the encoded issuer, a colon, and the encoded
account. -/
theorem C6_issuer_label (r : Row) :
    ((r.name = none ∨ r.name = some "") →
      issuerOf r = "Unknown" ∧ pyQuote (issuerOf r) = "Unknown") ∧
    ((r.username = none ∨ r.username = some "") → ':' ∉ (labelOf r).toList) ∧
    (∀ u, r.username = some u → u ≠ "" →
      labelOf r = pyQuote (issuerOf r) ++ ":" ++ pyQuote (accountOf r)) := by
  refine ⟨?_, ?_, ?_⟩
  · intro hn
    have hi : issuerOf r = "Unknown" := by
      rcases hn with hn | hn <;> simp [issuerOf, hn]
    exact ⟨hi, by rw [hi]; decide⟩
  · intro hu
    have ha : accountOf r = "" := by
      rcases hu with hu | hu <;> simp [accountOf, hu]
    rw [labelOf, if_pos ha]
    exact pyQuote_no_colon _
  · intro u hu hne
    have ha : accountOf r = u := by simp [accountOf, hu]
    rw [labelOf, if_neg (by rw [ha]; exact hne)]

theorem C6_witness :
    issuerOf ⟨none, some "svc", "JBSWY3DPEHPK3PXP", 2⟩ = "Unknown" ∧
    labelOf ⟨some "Acme", some "bob", "S", 0⟩ =
      pyQuote (issuerOf ⟨some "Acme", some "bob", "S", 0⟩) ++ ":" ++
        pyQuote (accountOf ⟨some "Acme", some "bob", "S", 0⟩) :=
  ⟨((C6_issuer_label _).1 (Or.inl rfl)).1,
    (C6_issuer_label _).2.2 "bob" rfl (by decide)⟩

/-! ## Claim theorems about the top-level control flow -/

/-- C7: when the database file is absent the run exits with status 1,
prints the remediation report naming the expected fixed path, attempts
no database I/O, and creates no output file. -/
theorem C7_missing_db (env : Env) (h : env.dbExists = false) :
    runScript env =
      { exitCode := 1, dbOpened := false, outputFile := none,
        events := [Event.dbMissing expectedDbPath] } := by
  rw [runScript, if_pos h]

theorem C7_witness :
    runScript ⟨false, Except.ok []⟩ =
      { exitCode := 1, dbOpened := false, outputFile := none,
        events := [Event.dbMissing expectedDbPath] } :=
  C7_missing_db _ rfl

theorem rowToUri_none (r : Row) (h1 : r.account_type = 1)
    (h2 : base64_to_base32 (cleanSecret r.secret_key) = none) : rowToUri r = none := by
  rw [rowToUri, rowSecret, if_pos h1, h2]
  rfl

theorem processGo_skipped_mem (r : Row) (hr : rowToUri r = none) :
    ∀ (xs : List Row) (ys : List Row) (i : Nat),
      Event.skipped (i + xs.length) (issuerOf r) (accountOf r)
        ∈ (processGo i (xs ++ r :: ys)).2 := by
  intro xs
  induction xs with
  | nil =>
    intro ys i
    simp only [List.nil_append, processGo, hr, List.length_nil, Nat.add_zero]
    exact List.mem_cons_self _ _
  | cons x xs ih =>
    intro ys i
    rw [List.cons_append]
    have harith : i + 1 + xs.length = i + (x :: xs).length := by
      rw [List.length_cons]
      omega
    cases hx : rowToUri x with
    | none =>
      simp only [processGo, hx]
      apply List.mem_cons_of_mem
      have hm := ih ys (i + 1)
      rwa [harith] at hm
    | some url =>
      simp only [processGo, hx]
      apply List.mem_cons_of_mem
      have hm := ih ys (i + 1)
      rwa [harith] at hm

/-- C8: an `account_type=1` row whose secret fails base64 decoding is
skipped alone: it emits no URI, a skip line identifying the row (its
index and its `name or "Unknown"` / `username or ""`) is printed, the
remaining rows produce exactly the output they would produce without
that row, and a run over such a row list still finishes with exit
code 0 — the failure never aborts the run. -/
theorem C8_skip_localized (xs ys : List Row) (r : Row)
    (h1 : r.account_type = 1)
    (h2 : base64_to_base32 (cleanSecret r.secret_key) = none) :
    rowToUri r = none ∧
    (processRows (xs ++ r :: ys)).1 = (processRows (xs ++ ys)).1 ∧
    Event.skipped (xs.length + 1) (issuerOf r) (accountOf r)
      ∈ (processRows (xs ++ r :: ys)).2 ∧
    (∀ env : Env, env.dbExists = true → env.queryResult = Except.ok (xs ++ r :: ys) →
      (runScript env).exitCode = 0) := by
  have hr := rowToUri_none r h1 h2
  refine ⟨hr, ?_, ?_, ?_⟩
  · rw [processRows, processRows, processGo_fst, processGo_fst]
    rw [List.filterMap_append, List.filterMap_append, List.filterMap_cons, hr]
  · have hm := processGo_skipped_mem r hr xs ys 1
    rwa [Nat.add_comm 1 xs.length] at hm
  · intro env he hq
    rw [runScript, if_neg (by simp [he]), hq]
    have hne : (xs ++ r :: ys).isEmpty = false := by simp
    simp only [hne, Bool.false_eq_true, if_false]

theorem C8_witness :
    rowToUri ⟨some "Acme", some "bob@x.com", "A", 1⟩ = none :=
  (C8_skip_localized [] [] ⟨some "Acme", some "bob@x.com", "A", 1⟩ rfl (by decide)).1

/-- C9: a run over an empty query result exits with status 0, creates
no output file, opens the database (the emptiness is only known after
the query), and prints the no-accounts message. -/
theorem C9_no_rows (env : Env) (h1 : env.dbExists = true)
    (h2 : env.queryResult = Except.ok []) :
    runScript env =
      { exitCode := 0, dbOpened := true, outputFile := none,
        events := [Event.noAccounts] } := by
  rw [runScript, if_neg (by simp [h1]), h2]
  rfl

theorem C9_witness :
    runScript ⟨true, Except.ok []⟩ =
      { exitCode := 0, dbOpened := true, outputFile := none,
        events := [Event.noAccounts] } :=
  C9_no_rows _ rfl rfl

/-- C10: when at least one qualifying row exists but every row is
skipped, the output file is still created — empty, zero lines — and the
run exits with status 0; the no-output-file behaviour is exclusive to
the zero-qualifying-rows case. -/
theorem C10_all_skipped (env : Env) (rows : List Row)
    (h1 : env.dbExists = true) (h2 : env.queryResult = Except.ok rows)
    (h3 : rows ≠ []) (h4 : ∀ r ∈ rows, rowToUri r = none) :
    (runScript env).outputFile = some [] ∧ (runScript env).exitCode = 0 := by
  have hne : rows.isEmpty = false := by
    cases rows with
    | nil => exact absurd rfl h3
    | cons a l => rfl
  have hurls : (processRows rows).1 = [] := by
    rw [processRows, processGo_fst]
    exact List.filterMap_eq_nil_iff.mpr h4
  constructor <;>
  · rw [runScript, if_neg (by simp [h1]), h2]
    simp only [hne, Bool.false_eq_true, if_false, hurls]

theorem C10_witness :
    (runScript ⟨true, Except.ok [⟨some "Acme", none, "A", 1⟩]⟩).outputFile = some [] :=
  (C10_all_skipped _ _ rfl rfl (by decide) (by decide)).1

end MSAuth
